import Mathlib

/-!
Shallow embedding of `src/app/request_handler.py`: a coalescing request
queue (`ClientRequestQueue`), a fingerprint-keyed response cache
(`ResponseCache`), and the coordinator (`RequestHandler`) with its
producer entry point `handle_request` and its consumer loop body
`process_request_queue` (one iteration modelled as `processOne`).

Python objects are embedded as immutable Lean structures; the mutable
per-request fields (`api_response`, `event`) live in the coordinator
state, keyed by the request's unique sequence number `cnt`.  Mutation of
a dict entry through an aliased reference is embedded as storing the
mutated value back under the same key.
-/

namespace App

/-- Modelled from the spec: `ApiResponse` lives in `app.model.api_models`,
which is not under `src/`.  Per the spec it is a response object carrying
generated text and a status code, together with a cache-derived marker that
lookups switch on. -/
structure ApiResponse where
  generated_text : String
  status_code : Nat
  is_cached_response : Bool
deriving DecidableEq

/-- Modelled from the spec: lookups mark returned entries as cache-derived.
The setter is called for its effect at `request_handler.py:74`
(`api_response.set_is_cached_response()` as a bare statement), so it mutates
the object in place; the embedding returns the mutated value. -/
def ApiResponse.set_is_cached_response (r : ApiResponse) : ApiResponse :=
  { r with is_cached_response := true }

/-- Modelled from the spec: `generate_default_api_response(message, status_code)`
from `app.model.api_models` (not under `src/`) is a pure constructor of a
response carrying the given text and status; a freshly constructed response
is not cache-derived. -/
def generate_default_api_response (message : String) (status_code : Nat) : ApiResponse :=
  { generated_text := message, status_code := status_code, is_cached_response := false }

/-- Modelled from the spec: `RequestPayload` (from `app.model.api_models`,
not under `src/`) with its deterministic fingerprint function
`payload.key()`; the payload contents are abstracted as a string and the
key is determined by the contents. -/
structure RequestPayload where
  data : String
deriving DecidableEq

/-- Modelled from the spec: `payload.key()` is a deterministic, comparable
key derived from payload contents. -/
def RequestPayload.key (p : RequestPayload) : String := p.data

/-- The transport-level request: only the pieces `get_client_id` reads are
embedded — the header map (`request._headers`) and the remote address
(`request.client.host`). -/
structure Request where
  headers : String → Option String
  host : String

/-- Embeds `ClientRequest.get_client_id` (`request_handler.py:23-30`):
if an `authorization` header is present and starts with `"Bearer "`, the
identity is the credential after the prefix concatenated with the remote
host; otherwise the empty string. -/
def get_client_id (r : Request) : String :=
  match r.headers "authorization" with
  | some auth_header =>
      if auth_header.data.take 7 = "Bearer ".data then
        String.mk (auth_header.data.drop 7) ++ r.host
      else ""
  | none => ""

/-- Embeds the immutable creation data of `ClientRequest`
(`request_handler.py:13-21`): client identity, sequence number `cnt`, and
payload.  The mutable fields `api_response` and `event` are kept in
`HandlerState`, keyed by `cnt`; `creation_time` and the raw request are
only used for logging and are not modelled. -/
structure ClientRequest where
  id : String
  cnt : Nat
  request_payload : RequestPayload
deriving DecidableEq

/-- State of `ClientRequestQueue` (`request_handler.py:33-58`): the FIFO
of client identities (`_queue`) and the identity-to-latest-unit map
(`_client_items`). -/
structure QueueState where
  queue : List String
  client_items : String → Option ClientRequest

def emptyQueue : QueueState := { queue := [], client_items := fun _ => none }

/-- Embeds `ClientRequestQueue.put_or_exchange` (`request_handler.py:40-49`):
under the lock, if the identity already has a pending unit it is returned
and the map entry replaced (the FIFO untouched); otherwise the identity is
appended to the FIFO.  In both cases the map stores the new unit. -/
def put_or_exchange (item : ClientRequest) (s : QueueState) :
    Option ClientRequest × QueueState :=
  match s.client_items item.id with
  | some prev =>
      (some prev,
       { s with client_items := fun x => if x = item.id then some item else s.client_items x })
  | none =>
      (none,
       { queue := s.queue ++ [item.id],
         client_items := fun x => if x = item.id then some item else s.client_items x })

/-- Embeds one successful attempt of `ClientRequestQueue.get`
(`request_handler.py:51-58`): pop the oldest identity off the FIFO and
remove its unit from the map.  `none` covers both the empty-queue case
(the Python code sleeps and retries) and the `KeyError` of
`self._client_items.pop` (which the proved invariant rules out). -/
def get_step (s : QueueState) : Option (ClientRequest × QueueState) :=
  match s.queue with
  | [] => none
  | client_id :: rest =>
    match s.client_items client_id with
    | some item =>
        some (item,
          { queue := rest,
            client_items := fun x => if x = client_id then none else s.client_items x })
    | none => none

/-- State of `ResponseCache` (`request_handler.py:61-76`): fingerprint to
response. -/
abbrev CacheState := String → Option ApiResponse

/-- Embeds `ResponseCache.update` (`request_handler.py:66-68`):
unconditional overwrite. -/
def cacheUpdate (p : RequestPayload) (r : ApiResponse) (c : CacheState) : CacheState :=
  fun k => if k = p.key then some r else c k

/-- Embeds `ResponseCache.retrieve` (`request_handler.py:70-76`): on a hit
the stored object has `set_is_cached_response()` called on it and is
returned.  The Python dict holds a reference to that same object, so the
in-place marking also changes the stored entry; the embedding writes the
marked value back under the key. -/
def retrieve (p : RequestPayload) (c : CacheState) : Option ApiResponse × CacheState :=
  match c p.key with
  | some api_response =>
      (some api_response.set_is_cached_response,
       fun k => if k = p.key then some api_response.set_is_cached_response else c k)
  | none => (none, c)

/-- The generation backend (`GeneratorBase.generate`, external to `src/`):
either a response or a declared `GeneratorException` carrying a message. -/
abbrev Generator := RequestPayload → Except String ApiResponse

/-- Mutable state owned by one `RequestHandler` (`request_handler.py:79-84`)
plus the per-unit mutable fields: `slots n` is the `api_response` field of
the unit with sequence number `n`, `events n` its completion event.
`genCalls` counts backend invocations (for stating that a path performs
none). -/
structure HandlerState where
  queue : QueueState
  cache : CacheState
  cnt : Nat
  slots : Nat → Option ApiResponse
  events : Nat → Bool
  genCalls : Nat

/-- Outcome of the synchronous prefix of `handle_request`: either an
immediate fast-path return of a cached response, or the caller is left
awaiting unit `uid`, having possibly superseded (and completed) the unit
with sequence number `superseded`. -/
inductive HandleOutcome where
  | cached (resp : ApiResponse)
  | waiting (uid : Nat) (superseded : Option Nat)
deriving DecidableEq

/-- Embeds `RequestHandler.handle_request` (`request_handler.py:108-128`) up
to the suspension at `event.wait()` — everything before it runs without
yielding to the event loop.  In order: increment `cnt`, create the
`ClientRequest`, fast-path cache lookup (returning the cached response on a
hit without touching the queue), otherwise `put_or_exchange`; a replaced
unit is completed at once with `generate_default_api_response("", 429)` and
its event set. -/
def handle_request (r : Request) (p : RequestPayload) (s : HandlerState) :
    HandlerState × HandleOutcome :=
  let local_cnt := s.cnt + 1
  let client_request : ClientRequest :=
    { id := get_client_id r, cnt := local_cnt, request_payload := p }
  match retrieve p s.cache with
  | (some resp, cache1) =>
      ({ s with cnt := local_cnt, cache := cache1 }, .cached resp)
  | (none, cache1) =>
    match put_or_exchange client_request s.queue with
    | (some old, q1) =>
        ({ s with
            cnt := local_cnt
            cache := cache1
            queue := q1
            slots := fun n =>
              if n = old.cnt then some (generate_default_api_response "" 429) else s.slots n
            events := fun n => if n = old.cnt then true else s.events n },
         .waiting local_cnt (some old.cnt))
    | (none, q1) =>
        ({ s with cnt := local_cnt, cache := cache1, queue := q1 },
         .waiting local_cnt none)

/-- Embeds one iteration of `RequestHandler.process_request_queue`
(`request_handler.py:86-106`): dequeue, re-check the cache, on a miss
invoke the backend (caching a success, converting a declared
`GeneratorException` into `generate_default_api_response(str(e), 400)`
without caching), then write the result slot and set the event.  Returns
the new state together with the completed unit's sequence number; `none`
when no unit can be dequeued. -/
def processOne (gen : Generator) (s : HandlerState) :
    Option (HandlerState × Nat) :=
  match get_step s.queue with
  | none => none
  | some (client_request, q1) =>
    let rcg : ApiResponse × CacheState × Nat :=
      match retrieve client_request.request_payload s.cache with
      | (some resp, cache1) => (resp, cache1, s.genCalls)
      | (none, cache1) =>
        match gen client_request.request_payload with
        | .ok resp =>
            (resp, cacheUpdate client_request.request_payload resp cache1, s.genCalls + 1)
        | .error e =>
            (generate_default_api_response e 400, cache1, s.genCalls + 1)
    some ({ s with
              queue := q1
              cache := rcg.2.1
              genCalls := rcg.2.2
              slots := fun n =>
                if n = client_request.cnt then some rcg.1 else s.slots n
              events := fun n => if n = client_request.cnt then true else s.events n },
          client_request.cnt)

/-- A scheduling label for the interleaving semantics of one
`RequestHandler`: either a producer runs the synchronous prefix of
`handle_request` for some inbound call, or the single consumer task runs
one iteration of `process_request_queue`.  Each label covers the code
between two suspension points of the event loop. -/
inductive Lab where
  | arriveL (r : Request) (p : RequestPayload)
  | consumeL

/-- A run of the system: the handler state together with bookkeeping of
which unit sequence numbers have been completed (slot written and event
set), which were enqueued, and which were created by a fast-path cache
hit and abandoned without being enqueued. -/
structure RunSt where
  st : HandlerState
  completed : List Nat
  enq : List Nat
  ab : List Nat

/-- One scheduling step: dispatch on the label, record completions of
superseded units (from `handle_request`) and of dequeued units (from the
consumer), enqueued unit numbers, and abandoned fast-path unit numbers.
A `consumeL` label with an empty queue is a no-op (the consumer's
sleep-and-retry loop). -/
def stepRun (gen : Generator) (a : RunSt) (l : Lab) : RunSt :=
  match l with
  | .arriveL r p =>
    match handle_request r p a.st with
    | (s1, .cached _) =>
        { a with st := s1, ab := a.ab ++ [a.st.cnt + 1] }
    | (s1, .waiting uid sup) =>
        { st := s1
          completed := a.completed ++ sup.toList
          enq := a.enq ++ [uid]
          ab := a.ab }
  | .consumeL =>
    match processOne gen a.st with
    | none => a
    | some (s1, uid) => { a with st := s1, completed := a.completed ++ [uid] }

def runSteps (gen : Generator) (a : RunSt) (labs : List Lab) : RunSt :=
  labs.foldl (stepRun gen) a

/-- The initial run state of a freshly constructed `RequestHandler`,
generalised over the cache contents so that fast-path hits can occur. -/
def initRun (c : CacheState) : RunSt :=
  { st := { queue := emptyQueue, cache := c, cnt := 0,
            slots := fun _ => none, events := fun _ => false, genCalls := 0 }
    completed := [], enq := [], ab := [] }

/-- Operations on a `ClientRequestQueue` in isolation, for stating its
reachable-state invariants. -/
inductive QOp where
  | qput (u : ClientRequest)
  | qtake

def applyQ (s : QueueState) (op : QOp) : QueueState :=
  match op with
  | .qput u => (put_or_exchange u s).2
  | .qtake =>
    match get_step s with
    | some (_, s1) => s1
    | none => s

def runQ (ops : List QOp) : QueueState :=
  ops.foldl applyQ emptyQueue

/-- The most recent `qput` for identity `cid` in `ops`, starting from a
prior assignment `g`.  For an identity currently in the FIFO this is the
most recently submitted, not-yet-dequeued unit. -/
def lastPutFrom (g : String → Option ClientRequest) (ops : List QOp) (cid : String) :
    Option ClientRequest :=
  ops.foldl
    (fun acc op =>
      match op with
      | .qput u => if u.id = cid then some u else acc
      | .qtake => acc)
    (g cid)

def lastPutFor (ops : List QOp) (cid : String) : Option ClientRequest :=
  lastPutFrom (fun _ => none) ops cid

/-- Well-formedness of the coalescing queue: the FIFO holds each identity
at most once, an identity is in the FIFO exactly when it has a map entry,
and each map entry's unit carries the identity it is stored under. -/
structure QWF (s : QueueState) : Prop where
  nodup : s.queue.Nodup
  memIff : ∀ cid, cid ∈ s.queue ↔ s.client_items cid ≠ none
  idEq : ∀ cid u, s.client_items cid = some u → u.id = cid

/-- Some pending unit in the identity-to-unit map has sequence number `n`. -/
def mapHas (f : String → Option ClientRequest) (n : Nat) : Prop :=
  ∃ cid u, f cid = some u ∧ u.cnt = n

/-- The run invariant: the queue is well formed; completed sequence
numbers are distinct, at most the current counter, and detached from the
map; map entries have sequence numbers bounded by the counter and
pairwise distinct; every enqueued unit is completed or still pending;
abandoned fast-path units are never completed, never pending, and their
slot and event were never written; numbers above the counter are fresh. -/
structure Inv (a : RunSt) : Prop where
  qwf : QWF a.st.queue
  nodupC : a.completed.Nodup
  compLe : ∀ n ∈ a.completed, n ≤ a.st.cnt
  compNotMap : ∀ n ∈ a.completed, ¬ mapHas a.st.queue.client_items n
  mapLe : ∀ cid u, a.st.queue.client_items cid = some u → u.cnt ≤ a.st.cnt
  mapInj : ∀ cid u cid' u', a.st.queue.client_items cid = some u →
    a.st.queue.client_items cid' = some u' → u.cnt = u'.cnt → cid = cid'
  enqDone : ∀ n ∈ a.enq, n ∈ a.completed ∨ mapHas a.st.queue.client_items n
  abFree : ∀ n ∈ a.ab, n ∉ a.completed ∧ ¬ mapHas a.st.queue.client_items n ∧
    n ≤ a.st.cnt ∧ a.st.events n = false ∧ a.st.slots n = none
  fresh : ∀ n, a.st.cnt < n → a.st.events n = false ∧ a.st.slots n = none

/-- Unit `n` is never completed in any continuation of the run `a`: its
event is never set and its result slot never written, whatever the
backend does and however producers and the consumer are scheduled. -/
def neverCompleted (a : RunSt) (n : Nat) : Prop :=
  ∀ gen labs, (runSteps gen a labs).st.events n = false ∧
    (runSteps gen a labs).st.slots n = none

/-- A backend that always reports a declared failure, for concrete runs. -/
def genErr : Generator := fun _ => .error "unavailable"

/-- A backend that always succeeds with a fixed response, for concrete runs. -/
def genOk : Generator := fun _ => .ok { generated_text := "gen", status_code := 200, is_cached_response := false }

/-- A cache holding one unmarked entry under fingerprint `"x"`. -/
def cHit : CacheState := fun k => if k = "x" then some ⟨"hello", 200, false⟩ else none

/-- The empty cache. -/
def cNone : CacheState := fun _ => none

/-- An inbound request without credentials (identity resolves to `""`). -/
def rAnon : Request := ⟨fun _ => none, "1.2.3.4"⟩

/-- An inbound request with a Bearer credential (identity `"tokh2"`). -/
def rBear : Request := ⟨fun k => if k = "authorization" then some "Bearer tok" else none, "h2"⟩

def pX : RequestPayload := ⟨"x"⟩

def pY : RequestPayload := ⟨"y"⟩

/-- The run state after one fast-path cache-hit arrival on a fresh handler
whose cache already holds fingerprint `"x"`. -/
def aHit : RunSt := stepRun genErr (initRun cHit) (.arriveL rAnon pX)

theorem retrieve_hit (p : RequestPayload) (c : CacheState) (r : ApiResponse)
    (h : c p.key = some r) :
    retrieve p c =
      (some r.set_is_cached_response,
       fun k => if k = p.key then some r.set_is_cached_response else c k) := by
  unfold retrieve
  rw [h]

theorem retrieve_miss (p : RequestPayload) (c : CacheState)
    (h : c p.key = none) :
    retrieve p c = (none, c) := by
  unfold retrieve
  rw [h]

theorem put_or_exchange_replace (u : ClientRequest) (s : QueueState) (old : ClientRequest)
    (h : s.client_items u.id = some old) :
    put_or_exchange u s =
      (some old,
       { s with client_items := fun x => if x = u.id then some u else s.client_items x }) := by
  unfold put_or_exchange
  rw [h]

theorem put_or_exchange_fresh (u : ClientRequest) (s : QueueState)
    (h : s.client_items u.id = none) :
    put_or_exchange u s =
      (none,
       { queue := s.queue ++ [u.id],
         client_items := fun x => if x = u.id then some u else s.client_items x }) := by
  unfold put_or_exchange
  rw [h]

theorem get_step_cons (s : QueueState) (cid : String) (rest : List String)
    (item : ClientRequest) (hq : s.queue = cid :: rest)
    (hi : s.client_items cid = some item) :
    get_step s =
      some (item,
        { queue := rest,
          client_items := fun x => if x = cid then none else s.client_items x }) := by
  unfold get_step
  rw [hq]
  dsimp only
  rw [hi]

theorem get_step_nil (s : QueueState) (hq : s.queue = []) : get_step s = none := by
  unfold get_step
  rw [hq]

/-- C9: an inbound request carrying no authorization header resolves to the
empty client identity; a Bearer credential resolves to the credential value
after the marker concatenated with the remote address. -/
theorem C9_client_id (r : Request) :
    (r.headers "authorization" = none → get_client_id r = "") ∧
    (∀ h, r.headers "authorization" = some h → h.data.take 7 = "Bearer ".data →
      get_client_id r = String.mk (h.data.drop 7) ++ r.host) := by
  constructor
  · intro hn
    unfold get_client_id
    rw [hn]
  · intro h hs hb
    unfold get_client_id
    rw [hs]
    simp [hb]

theorem C9_client_id_witness :
    get_client_id rAnon = "" ∧ get_client_id rBear = "tokh2" := by
  refine ⟨(C9_client_id rAnon).1 rfl, ?_⟩
  have h := (C9_client_id rBear).2 "Bearer tok" rfl (by decide)
  exact h.trans (by decide)

/-- C2 counterexample: a lookup for a cached fingerprint mutates the stored
entry — before the call the stored response is unmarked, after the call the
entry under the same fingerprint carries the cache-derived marker, so the
stored entry did not stay unchanged. -/
theorem C2_counterexample :
    cHit pX.key = some ⟨"hello", 200, false⟩ ∧
    (retrieve pX cHit).2 pX.key = some ⟨"hello", 200, true⟩ ∧
    (retrieve pX cHit).2 pX.key ≠ cHit pX.key := by
  decide

/-- C2 (amended): `retrieve` marks the stored entry itself in place — the
returned handle is that same stored entry, now carrying the cache-derived
marker.  The marking is idempotent and touches no other fingerprint, so
repeated lookups return the same marked value and leave the cache unchanged
after the first lookup. -/
theorem C2_amended_retrieve (p : RequestPayload) (c : CacheState) (r : ApiResponse)
    (h : c p.key = some r) :
    (retrieve p c).1 = some r.set_is_cached_response ∧
    (retrieve p c).2 p.key = some r.set_is_cached_response ∧
    (∀ k, k ≠ p.key → (retrieve p c).2 k = c k) ∧
    (retrieve p (retrieve p c).2).1 = some r.set_is_cached_response ∧
    (retrieve p (retrieve p c).2).2 = (retrieve p c).2 := by
  have hidem : r.set_is_cached_response.set_is_cached_response = r.set_is_cached_response := rfl
  rw [retrieve_hit p c r h]
  have h2 : (fun k => if k = p.key then some r.set_is_cached_response else c k) p.key
      = some r.set_is_cached_response := by simp
  rw [retrieve_hit p _ r.set_is_cached_response h2, hidem]
  refine ⟨rfl, by simp, ?_, rfl, ?_⟩
  · intro k hk
    simp [hk]
  · funext k
    by_cases hk : k = p.key <;> simp [hk]

theorem C2_amended_retrieve_witness :
    (retrieve pX cHit).1 = some ⟨"hello", 200, true⟩ ∧
    (retrieve pX cHit).2 pX.key = some ⟨"hello", 200, true⟩ ∧
    (retrieve pX (retrieve pX cHit).2).2 = (retrieve pX cHit).2 := by
  have h := C2_amended_retrieve pX cHit ⟨"hello", 200, false⟩ rfl
  exact ⟨h.1, h.2.1, h.2.2.2.2⟩

/-- C4: when the fast-path lookup misses and `put_or_exchange` returns a
replaced unit, `handle_request` immediately writes the synthetic default
response with rejection status 429 into the replaced unit's result slot and
fires its completion event, so the caller awaiting the superseded unit
returns with that rejection. -/
theorem C4_supersession_completion (r : Request) (p : RequestPayload) (s : HandlerState)
    (old : ClientRequest)
    (hmiss : s.cache p.key = none)
    (hold : s.queue.client_items (get_client_id r) = some old) :
    ∃ s1, handle_request r p s = (s1, .waiting (s.cnt + 1) (some old.cnt)) ∧
      s1.slots old.cnt = some (generate_default_api_response "" 429) ∧
      (generate_default_api_response "" 429).status_code = 429 ∧
      s1.events old.cnt = true := by
  simp only [handle_request]
  rw [retrieve_miss p s.cache hmiss]
  dsimp only
  rw [put_or_exchange_replace ⟨get_client_id r, s.cnt + 1, p⟩ s.queue old hold]
  dsimp only
  exact ⟨_, rfl, by simp, rfl, by simp⟩

theorem C4_supersession_completion_witness :
    ∃ s1, handle_request rBear pX (stepRun genErr (initRun cNone) (.arriveL rBear pX)).st
        = (s1, .waiting 2 (some 1)) ∧
      s1.slots 1 = some (generate_default_api_response "" 429) ∧
      s1.events 1 = true := by
  have h := C4_supersession_completion rBear pX
    (stepRun genErr (initRun cNone) (.arriveL rBear pX)).st
    ⟨get_client_id rBear, 1, pX⟩ (by decide) (by decide)
  obtain ⟨s1, h1, h2, _, h4⟩ := h
  exact ⟨s1, h1, h2, h4⟩

/-- C10: the supersession rejection is built from the empty message string —
the status-429 default response delivered to a superseded caller carries no
explanatory text. -/
theorem C10_supersession_empty_message (r : Request) (p : RequestPayload)
    (s : HandlerState) (old : ClientRequest)
    (hmiss : s.cache p.key = none)
    (hold : s.queue.client_items (get_client_id r) = some old) :
    ∃ s1 resp, handle_request r p s = (s1, .waiting (s.cnt + 1) (some old.cnt)) ∧
      s1.slots old.cnt = some resp ∧
      resp.generated_text = "" ∧ resp.status_code = 429 := by
  simp only [handle_request]
  rw [retrieve_miss p s.cache hmiss]
  dsimp only
  rw [put_or_exchange_replace ⟨get_client_id r, s.cnt + 1, p⟩ s.queue old hold]
  dsimp only
  exact ⟨_, generate_default_api_response "" 429, rfl, by simp, rfl, rfl⟩

theorem C10_supersession_empty_message_witness :
    ∃ s1 resp, handle_request rBear pX (stepRun genErr (initRun cNone) (.arriveL rBear pX)).st
        = (s1, .waiting 2 (some 1)) ∧
      s1.slots 1 = some resp ∧
      resp.generated_text = "" ∧ resp.status_code = 429 := by
  exact C10_supersession_empty_message rBear pX
    (stepRun genErr (initRun cNone) (.arriveL rBear pX)).st
    ⟨get_client_id rBear, 1, pX⟩ (by decide) (by decide)

/-- C6: a `handle_request` call whose payload fingerprint is already cached
returns immediately with the cached response marked cache-derived, leaves
the queue untouched (no enqueue) and performs no backend invocation. -/
theorem C6_cache_hit_bypass (r : Request) (p : RequestPayload) (s : HandlerState)
    (r0 : ApiResponse) (h : s.cache p.key = some r0) :
    (handle_request r p s).2 = .cached r0.set_is_cached_response ∧
    r0.set_is_cached_response.is_cached_response = true ∧
    (handle_request r p s).1.queue = s.queue ∧
    (handle_request r p s).1.genCalls = s.genCalls := by
  simp only [handle_request]
  rw [retrieve_hit p s.cache r0 h]
  dsimp only
  exact ⟨rfl, rfl, rfl, rfl⟩

theorem C6_cache_hit_bypass_witness :
    (handle_request rAnon pX (initRun cHit).st).2 = .cached ⟨"hello", 200, true⟩ ∧
    (handle_request rAnon pX (initRun cHit).st).1.queue = (initRun cHit).st.queue ∧
    (handle_request rAnon pX (initRun cHit).st).1.genCalls = 0 := by
  have h := C6_cache_hit_bypass rAnon pX (initRun cHit).st ⟨"hello", 200, false⟩ rfl
  exact ⟨h.1, h.2.2.1, h.2.2.2⟩

/-- C7: in a consumer iteration, after dequeuing a unit the cache is checked
again for that unit's fingerprint; on a hit the backend is not invoked and
the cached response (marked cache-derived) is written as the unit's result,
with its completion event set. -/
theorem C7_consumer_recheck (gen : Generator) (s : HandlerState)
    (cid : String) (rest : List String) (cr : ClientRequest) (r0 : ApiResponse)
    (hq : s.queue.queue = cid :: rest)
    (hi : s.queue.client_items cid = some cr)
    (hc : s.cache cr.request_payload.key = some r0) :
    ∃ s1, processOne gen s = some (s1, cr.cnt) ∧
      s1.genCalls = s.genCalls ∧
      s1.slots cr.cnt = some r0.set_is_cached_response ∧
      s1.events cr.cnt = true := by
  simp only [processOne]
  rw [get_step_cons s.queue cid rest cr hq hi]
  dsimp only
  rw [retrieve_hit cr.request_payload s.cache r0 hc]
  dsimp only
  exact ⟨_, rfl, rfl, by simp, by simp⟩

theorem C7_consumer_recheck_witness :
    ∃ s1, processOne genOk (runSteps genOk (initRun cNone)
        [.arriveL rAnon pY, .arriveL rBear pY, .consumeL]).st = some (s1, 2) ∧
      s1.genCalls = (runSteps genOk (initRun cNone)
        [.arriveL rAnon pY, .arriveL rBear pY, .consumeL]).st.genCalls ∧
      s1.events 2 = true := by
  have h := C7_consumer_recheck genOk
    (runSteps genOk (initRun cNone) [.arriveL rAnon pY, .arriveL rBear pY, .consumeL]).st
    "tokh2" [] ⟨"tokh2", 2, pY⟩ ⟨"gen", 200, false⟩ (by decide) (by decide) (by decide)
  obtain ⟨s1, h1, h2, _, h4⟩ := h
  exact ⟨s1, h1, h2, h4⟩

/-- C5: when the dequeued unit's fingerprint misses the cache and the
backend raises a declared `GeneratorException`, the consumer completes the
unit with a default response carrying the error text and client-error
status 400, stores nothing in the cache for that fingerprint, and a later
iteration for a unit with the same (still missing) fingerprint re-invokes
the backend. -/
theorem C5_backend_failure_isolation (gen : Generator) (s : HandlerState)
    (cid : String) (rest : List String) (cr : ClientRequest) (e : String)
    (hq : s.queue.queue = cid :: rest)
    (hi : s.queue.client_items cid = some cr)
    (hc : s.cache cr.request_payload.key = none)
    (hgen : gen cr.request_payload = .error e) :
    ∃ s1, processOne gen s = some (s1, cr.cnt) ∧
      s1.slots cr.cnt = some (generate_default_api_response e 400) ∧
      (generate_default_api_response e 400).status_code = 400 ∧
      (generate_default_api_response e 400).generated_text = e ∧
      s1.events cr.cnt = true ∧
      s1.cache cr.request_payload.key = none ∧
      (∀ s2 cid2 rest2 cr2,
        s2.queue.queue = cid2 :: rest2 →
        s2.queue.client_items cid2 = some cr2 →
        s2.cache cr2.request_payload.key = none →
        ∃ s3 n, processOne gen s2 = some (s3, n) ∧ s3.genCalls = s2.genCalls + 1) := by
  simp only [processOne]
  rw [get_step_cons s.queue cid rest cr hq hi]
  dsimp only
  rw [retrieve_miss cr.request_payload s.cache hc]
  dsimp only
  rw [hgen]
  dsimp only
  refine ⟨_, rfl, by simp, rfl, rfl, by simp, hc, ?_⟩
  intro s2 cid2 rest2 cr2 hq2 hi2 hc2
  rw [get_step_cons s2.queue cid2 rest2 cr2 hq2 hi2]
  dsimp only
  rw [retrieve_miss cr2.request_payload s2.cache hc2]
  dsimp only
  cases hg2 : gen cr2.request_payload with
  | ok resp => exact ⟨_, _, rfl, rfl⟩
  | error e2 => exact ⟨_, _, rfl, rfl⟩

theorem C5_backend_failure_isolation_witness :
    ∃ s1, processOne genErr (runSteps genErr (initRun cNone) [.arriveL rBear pY]).st
        = some (s1, 1) ∧
      s1.slots 1 = some (generate_default_api_response "unavailable" 400) ∧
      s1.events 1 = true ∧
      s1.cache pY.key = none := by
  have h := C5_backend_failure_isolation genErr
    (runSteps genErr (initRun cNone) [.arriveL rBear pY]).st
    "tokh2" [] ⟨"tokh2", 1, pY⟩ "unavailable" (by decide) (by decide) (by decide) rfl
  obtain ⟨s1, h1, h2, _, _, h5, h6, _⟩ := h
  exact ⟨s1, h1, h2, h5, h6⟩

theorem QWF_empty : QWF emptyQueue := by
  refine ⟨List.nodup_nil, ?_, ?_⟩
  · intro cid
    simp [emptyQueue]
  · intro cid u h
    simp [emptyQueue] at h

theorem QWF_put (u : ClientRequest) (s : QueueState) (h : QWF s) :
    QWF (put_or_exchange u s).2 := by
  cases hc : s.client_items u.id with
  | some old =>
    rw [put_or_exchange_replace u s old hc]
    refine ⟨h.nodup, ?_, ?_⟩
    · intro cid
      dsimp only
      by_cases hcid : cid = u.id
      · subst hcid
        rw [if_pos rfl]
        have hmem : u.id ∈ s.queue := (h.memIff u.id).mpr (by rw [hc]; simp)
        exact iff_of_true hmem (by simp)
      · rw [if_neg hcid]
        exact h.memIff cid
    · intro cid v hv
      dsimp only at hv
      by_cases hcid : cid = u.id
      · rw [if_pos hcid] at hv
        cases hv
        exact hcid.symm
      · rw [if_neg hcid] at hv
        exact h.idEq cid v hv
  | none =>
    rw [put_or_exchange_fresh u s hc]
    have hnm : u.id ∉ s.queue := fun hmem => (h.memIff u.id).mp hmem hc
    refine ⟨?_, ?_, ?_⟩
    · dsimp only
      rw [List.nodup_append]
      exact ⟨h.nodup, List.nodup_singleton _, by simp [List.disjoint_singleton, hnm]⟩
    · intro cid
      dsimp only
      by_cases hcid : cid = u.id
      · subst hcid
        rw [if_pos rfl]
        exact iff_of_true (by simp) (by simp)
      · rw [if_neg hcid]
        rw [List.mem_append]
        simp only [List.mem_singleton, hcid, or_false]
        exact h.memIff cid
    · intro cid v hv
      dsimp only at hv
      by_cases hcid : cid = u.id
      · rw [if_pos hcid] at hv
        cases hv
        exact hcid.symm
      · rw [if_neg hcid] at hv
        exact h.idEq cid v hv

theorem get_step_total (s : QueueState) (h : QWF s) (cid : String) (rest : List String)
    (hq : s.queue = cid :: rest) :
    ∃ item, s.client_items cid = some item ∧ item.id = cid ∧
      get_step s = some (item,
        { queue := rest,
          client_items := fun x => if x = cid then none else s.client_items x }) := by
  have hmem : cid ∈ s.queue := by rw [hq]; exact List.mem_cons_self _ _
  have hne := (h.memIff cid).mp hmem
  cases hit : s.client_items cid with
  | none => exact absurd hit hne
  | some item =>
    exact ⟨item, rfl, h.idEq cid item hit, get_step_cons s cid rest item hq hit⟩

theorem QWF_get_preserve (s : QueueState) (h : QWF s) (cid : String) (rest : List String)
    (hq : s.queue = cid :: rest) :
    QWF { queue := rest,
          client_items := fun x => if x = cid then none else s.client_items x } := by
  have hnd := h.nodup
  rw [hq, List.nodup_cons] at hnd
  refine ⟨hnd.2, ?_, ?_⟩
  · intro x
    dsimp only
    by_cases hx : x = cid
    · subst hx
      rw [if_pos rfl]
      exact iff_of_false hnd.1 (by simp)
    · rw [if_neg hx]
      have := h.memIff x
      rw [hq] at this
      simp only [List.mem_cons, hx, false_or] at this
      exact this
  · intro x v hv
    dsimp only at hv
    by_cases hx : x = cid
    · rw [if_pos hx] at hv
      cases hv
    · rw [if_neg hx] at hv
      exact h.idEq x v hv

theorem runQAux (ops : List QOp) :
    ∀ (s : QueueState) (g : String → Option ClientRequest),
      QWF s → (∀ cid, cid ∈ s.queue → s.client_items cid = g cid) →
      QWF (ops.foldl applyQ s) ∧
      (∀ cid, cid ∈ (ops.foldl applyQ s).queue →
        (ops.foldl applyQ s).client_items cid = lastPutFrom g ops cid) := by
  induction ops with
  | nil =>
    intro s g hw hg
    exact ⟨hw, fun cid hm => hg cid hm⟩
  | cons op rest ih =>
    intro s g hw hg
    rw [List.foldl_cons]
    have hlast : lastPutFrom g (op :: rest)
        = lastPutFrom (fun cid =>
            match op with
            | .qput u => if u.id = cid then some u else g cid
            | .qtake => g cid) rest := rfl
    rw [hlast]
    apply ih
    case a =>
      cases op with
      | qput u => exact QWF_put u s hw
      | qtake =>
        cases hq : s.queue with
        | nil =>
          have : applyQ s .qtake = s := by
            unfold applyQ
            rw [get_step_nil s hq]
          rw [this]
          exact hw
        | cons cid0 rest0 =>
          obtain ⟨item, hit, hiid, hget⟩ := get_step_total s hw cid0 rest0 hq
          have : applyQ s .qtake
              = { queue := rest0,
                  client_items := fun x => if x = cid0 then none else s.client_items x } := by
            unfold applyQ
            rw [hget]
          rw [this]
          exact QWF_get_preserve s hw cid0 rest0 hq
    case a =>
      cases op with
      | qput u =>
        intro cid hm
        have hm2 : cid ∈ (put_or_exchange u s).2.queue := hm
        show (put_or_exchange u s).2.client_items cid = _
        cases hc : s.client_items u.id with
        | some old =>
          rw [put_or_exchange_replace u s old hc] at hm2 ⊢
          dsimp only at hm2 ⊢
          by_cases hcid : cid = u.id
          · subst hcid
            rw [if_pos rfl, if_pos rfl]
          · rw [if_neg hcid, if_neg (fun hx => hcid hx.symm)]
            exact hg cid hm2
        | none =>
          rw [put_or_exchange_fresh u s hc] at hm2 ⊢
          dsimp only at hm2 ⊢
          by_cases hcid : cid = u.id
          · subst hcid
            rw [if_pos rfl, if_pos rfl]
          · rw [if_neg hcid, if_neg (fun hx => hcid hx.symm)]
            rw [List.mem_append] at hm2
            simp only [List.mem_singleton, hcid, or_false] at hm2
            exact hg cid hm2
      | qtake =>
        intro cid hm
        cases hq : s.queue with
        | nil =>
          have heq : applyQ s .qtake = s := by
            unfold applyQ
            rw [get_step_nil s hq]
          rw [heq] at hm ⊢
          exact hg cid hm
        | cons cid0 rest0 =>
          obtain ⟨item, hit, hiid, hget⟩ := get_step_total s hw cid0 rest0 hq
          have heq : applyQ s .qtake
              = { queue := rest0,
                  client_items := fun x => if x = cid0 then none else s.client_items x } := by
            unfold applyQ
            rw [hget]
          rw [heq] at hm ⊢
          dsimp only at hm ⊢
          have hcid : cid ≠ cid0 := by
            intro hx
            subst hx
            have hnd := hw.nodup
            rw [hq, List.nodup_cons] at hnd
            exact hnd.1 hm
          rw [if_neg hcid]
          apply hg
          rw [hq]
          exact List.mem_cons_of_mem _ hm

/-- C3: in every reachable state of the coalescing queue, each identity
occurs at most once in the FIFO, every identity in the FIFO has a map entry
holding the most recently submitted not-yet-dequeued unit for it;
`put_or_exchange` on an already-queued identity replaces the stored unit
without changing the FIFO at all (so the identity's position is unchanged);
and a dequeue from a well-formed nonempty queue always returns the front
identity together with its stored unit, never an identity without a unit. -/
theorem C3_queue_invariants :
    (∀ ops : List QOp, QWF (runQ ops)) ∧
    (∀ (ops : List QOp) (cid : String), cid ∈ (runQ ops).queue →
      (runQ ops).client_items cid = lastPutFor ops cid) ∧
    (∀ (u old : ClientRequest) (s : QueueState), s.client_items u.id = some old →
      (put_or_exchange u s).1 = some old ∧
      (put_or_exchange u s).2.queue = s.queue ∧
      (put_or_exchange u s).2.client_items u.id = some u) ∧
    (∀ (s : QueueState) (cid : String) (rest : List String), QWF s →
      s.queue = cid :: rest →
      ∃ item s1, get_step s = some (item, s1) ∧ item.id = cid ∧
        s.client_items cid = some item) := by
  have base : ∀ ops : List QOp,
      QWF (runQ ops) ∧
      (∀ cid, cid ∈ (runQ ops).queue →
        (runQ ops).client_items cid = lastPutFrom (fun _ => none) ops cid) := by
    intro ops
    apply runQAux ops emptyQueue (fun _ => none) QWF_empty
    intro cid hm
    simp [emptyQueue] at hm
  refine ⟨fun ops => (base ops).1, fun ops cid hm => (base ops).2 cid hm, ?_, ?_⟩
  · intro u old s h
    rw [put_or_exchange_replace u s old h]
    exact ⟨rfl, rfl, by simp⟩
  · intro s cid rest hw hq
    obtain ⟨item, hit, hiid, hget⟩ := get_step_total s hw cid rest hq
    exact ⟨item, _, hget, hiid, hit⟩

theorem C3_queue_invariants_witness :
    ((runQ [.qput ⟨"a", 1, pX⟩, .qput ⟨"a", 2, pY⟩]).client_items "a"
      = lastPutFor [.qput ⟨"a", 1, pX⟩, .qput ⟨"a", 2, pY⟩] "a") ∧
    (runQ [.qput ⟨"a", 1, pX⟩, .qput ⟨"a", 2, pY⟩]).client_items "a" = some ⟨"a", 2, pY⟩ ∧
    (runQ [.qput ⟨"a", 1, pX⟩, .qput ⟨"a", 2, pY⟩]).queue = ["a"] ∧
    ((put_or_exchange ⟨"a", 2, pY⟩ (runQ [.qput ⟨"a", 1, pX⟩])).1 = some ⟨"a", 1, pX⟩ ∧
      (put_or_exchange ⟨"a", 2, pY⟩ (runQ [.qput ⟨"a", 1, pX⟩])).2.queue
        = (runQ [.qput ⟨"a", 1, pX⟩]).queue) ∧
    (∃ item s1, get_step (runQ [.qput ⟨"a", 1, pX⟩, .qput ⟨"a", 2, pY⟩]) = some (item, s1) ∧
      item.id = "a" ∧
      (runQ [.qput ⟨"a", 1, pX⟩, .qput ⟨"a", 2, pY⟩]).client_items "a" = some item) := by
  have h := C3_queue_invariants
  refine ⟨h.2.1 _ "a" (by decide), by decide, by decide, ?_, ?_⟩
  · have h3 := h.2.2.1 ⟨"a", 2, pY⟩ ⟨"a", 1, pX⟩ (runQ [.qput ⟨"a", 1, pX⟩]) (by decide)
    exact ⟨h3.1, h3.2.1⟩
  · exact h.2.2.2 (runQ [.qput ⟨"a", 1, pX⟩, .qput ⟨"a", 2, pY⟩]) "a" []
      (h.1 [.qput ⟨"a", 1, pX⟩, .qput ⟨"a", 2, pY⟩]) (by decide)

theorem handle_request_fresh (r : Request) (p : RequestPayload) (s : HandlerState)
    (hmiss : s.cache p.key = none)
    (hfree : s.queue.client_items (get_client_id r) = none) :
    handle_request r p s =
      ({ s with
          cnt := s.cnt + 1
          cache := s.cache
          queue := { queue := s.queue.queue ++ [get_client_id r],
                     client_items := fun x =>
                       if x = get_client_id r then some ⟨get_client_id r, s.cnt + 1, p⟩
                       else s.queue.client_items x } },
       .waiting (s.cnt + 1) none) := by
  simp only [handle_request]
  rw [retrieve_miss p s.cache hmiss]
  dsimp only
  rw [put_or_exchange_fresh ⟨get_client_id r, s.cnt + 1, p⟩ s.queue hfree]

theorem processOne_front (gen : Generator) (s : HandlerState) (cid : String)
    (rest : List String) (cr : ClientRequest)
    (hq : s.queue.queue = cid :: rest)
    (hi : s.queue.client_items cid = some cr) :
    ∃ s1, processOne gen s = some (s1, cr.cnt) ∧
      s1.queue.queue = rest ∧
      (∀ x, x ≠ cid → s1.queue.client_items x = s.queue.client_items x) ∧
      (∀ n, s1.events n = (if n = cr.cnt then true else s.events n)) := by
  simp only [processOne]
  rw [get_step_cons s.queue cid rest cr hq hi]
  dsimp only
  refine ⟨_, rfl, rfl, ?_, fun n => rfl⟩
  intro x hx
  dsimp only
  rw [if_neg hx]

/-- C8: starting from an idle handler, submitting identity A and then
identity B (distinct identities, both fingerprints uncached so neither call
takes the fast path) enqueues A before B, and the consumer then dequeues
and completes A's unit strictly before B's: the first iteration completes
A's unit while B's event is still unset, and only the second iteration
completes B's unit. -/
theorem C8_fifo_fairness (gen : Generator) (s : HandlerState)
    (ra rb : Request) (pa pb : RequestPayload)
    (hq0 : s.queue.queue = [])
    (hm0 : ∀ cid, s.queue.client_items cid = none)
    (hca : s.cache pa.key = none)
    (hcb : s.cache pb.key = none)
    (hid : get_client_id ra ≠ get_client_id rb)
    (heb : s.events (s.cnt + 2) = false) :
    ∃ s1 s2 s3 s4,
      handle_request ra pa s = (s1, .waiting (s.cnt + 1) none) ∧
      handle_request rb pb s1 = (s2, .waiting (s.cnt + 2) none) ∧
      processOne gen s2 = some (s3, s.cnt + 1) ∧
      s3.events (s.cnt + 1) = true ∧
      s3.events (s.cnt + 2) = false ∧
      processOne gen s3 = some (s4, s.cnt + 2) ∧
      s4.events (s.cnt + 2) = true := by
  have e1 := handle_request_fresh ra pa s hca (hm0 _)
  have e2 := handle_request_fresh rb pb
    ({ s with
        cnt := s.cnt + 1
        cache := s.cache
        queue := { queue := s.queue.queue ++ [get_client_id ra],
                   client_items := fun x =>
                     if x = get_client_id ra then some ⟨get_client_id ra, s.cnt + 1, pa⟩
                     else s.queue.client_items x } })
    hcb
    (by dsimp only
        rw [if_neg (fun hx => hid hx.symm)]
        exact hm0 _)
  obtain ⟨s3, e3, hq3, hm3, hev3⟩ := processOne_front gen
    ({ s with
        cnt := s.cnt + 1 + 1
        cache := s.cache
        queue := { queue := (s.queue.queue ++ [get_client_id ra]) ++ [get_client_id rb],
                   client_items := fun x =>
                     if x = get_client_id rb
                     then some ⟨get_client_id rb, s.cnt + 1 + 1, pb⟩
                     else if x = get_client_id ra
                          then some ⟨get_client_id ra, s.cnt + 1, pa⟩
                          else s.queue.client_items x } })
    (get_client_id ra) [get_client_id rb] ⟨get_client_id ra, s.cnt + 1, pa⟩
    (by dsimp only
        rw [hq0]
        rfl)
    (by dsimp only
        rw [if_neg hid, if_pos rfl])
  obtain ⟨s4, e4, hq4, hm4, hev4⟩ := processOne_front gen s3
    (get_client_id rb) [] ⟨get_client_id rb, s.cnt + 1 + 1, pb⟩
    hq3
    (by rw [hm3 (get_client_id rb) (fun hx => hid hx.symm)]
        dsimp only
        rw [if_pos rfl])
  refine ⟨_, _, s3, s4, e1, ?_, e3, ?_, ?_, e4, ?_⟩
  · exact e2
  · rw [hev3 (s.cnt + 1)]
    dsimp only
    rw [if_pos rfl]
  · rw [hev3 (s.cnt + 2)]
    dsimp only
    rw [if_neg (by omega : ¬ (s.cnt + 2 = s.cnt + 1))]
    exact heb
  · rw [hev4 (s.cnt + 2)]
    dsimp only
    rw [if_pos (by omega : s.cnt + 2 = s.cnt + 1 + 1)]

theorem C8_fifo_fairness_witness :
    ∃ s1 s2 s3 s4,
      handle_request rAnon pX (initRun cNone).st = (s1, .waiting 1 none) ∧
      handle_request rBear pY s1 = (s2, .waiting 2 none) ∧
      processOne genOk s2 = some (s3, 1) ∧
      s3.events 1 = true ∧
      s3.events 2 = false ∧
      processOne genOk s3 = some (s4, 2) ∧
      s4.events 2 = true := by
  exact C8_fifo_fairness genOk (initRun cNone).st rAnon rBear pX pY rfl
    (fun cid => rfl) rfl rfl (by decide) rfl

theorem handle_request_hit (r : Request) (p : RequestPayload) (s : HandlerState)
    (r0 : ApiResponse) (h : s.cache p.key = some r0) :
    handle_request r p s =
      ({ s with
          cnt := s.cnt + 1
          cache := fun k =>
            if k = p.key then some r0.set_is_cached_response else s.cache k },
       .cached r0.set_is_cached_response) := by
  simp only [handle_request]
  rw [retrieve_hit p s.cache r0 h]

theorem handle_request_exchange (r : Request) (p : RequestPayload) (s : HandlerState)
    (old : ClientRequest)
    (hmiss : s.cache p.key = none)
    (hold : s.queue.client_items (get_client_id r) = some old) :
    handle_request r p s =
      ({ s with
          cnt := s.cnt + 1
          cache := s.cache
          queue := { s.queue with
                     client_items := fun x =>
                       if x = get_client_id r then some ⟨get_client_id r, s.cnt + 1, p⟩
                       else s.queue.client_items x }
          slots := fun n =>
            if n = old.cnt then some (generate_default_api_response "" 429) else s.slots n
          events := fun n => if n = old.cnt then true else s.events n },
       .waiting (s.cnt + 1) (some old.cnt)) := by
  simp only [handle_request]
  rw [retrieve_miss p s.cache hmiss]
  dsimp only
  rw [put_or_exchange_replace ⟨get_client_id r, s.cnt + 1, p⟩ s.queue old hold]

theorem processOne_shape (gen : Generator) (s : HandlerState) (cid : String)
    (rest : List String) (cr : ClientRequest)
    (hq : s.queue.queue = cid :: rest)
    (hi : s.queue.client_items cid = some cr) :
    ∃ s1, processOne gen s = some (s1, cr.cnt) ∧
      s1.cnt = s.cnt ∧
      s1.queue.queue = rest ∧
      s1.queue.client_items = (fun x => if x = cid then none else s.queue.client_items x) ∧
      s1.events = (fun n => if n = cr.cnt then true else s.events n) ∧
      (∀ n, n ≠ cr.cnt → s1.slots n = s.slots n) := by
  simp only [processOne]
  rw [get_step_cons s.queue cid rest cr hq hi]
  dsimp only
  refine ⟨_, rfl, rfl, rfl, rfl, rfl, ?_⟩
  intro n hn
  dsimp only
  rw [if_neg hn]

theorem mapHas_insert_elim {f : String → Option ClientRequest} {cid0 : String}
    {u : ClientRequest} {n : Nat}
    (h : mapHas (fun x => if x = cid0 then some u else f x) n) :
    n = u.cnt ∨ ∃ cid v, cid ≠ cid0 ∧ f cid = some v ∧ v.cnt = n := by
  obtain ⟨cid, v, hv, hc⟩ := h
  have hv2 : (if cid = cid0 then some u else f cid) = some v := hv
  by_cases hx : cid = cid0
  · rw [if_pos hx] at hv2
    cases hv2
    exact Or.inl hc.symm
  · rw [if_neg hx] at hv2
    exact Or.inr ⟨cid, v, hx, hv2, hc⟩

theorem mapHas_insert_self {f : String → Option ClientRequest} {cid0 : String}
    {u : ClientRequest} :
    mapHas (fun x => if x = cid0 then some u else f x) u.cnt :=
  ⟨cid0, u, show (if cid0 = cid0 then some u else f cid0) = some u by rw [if_pos rfl], rfl⟩

theorem mapHas_insert_old {f : String → Option ClientRequest} {cid0 : String}
    {u v : ClientRequest} {cid : String} {n : Nat}
    (hx : cid ≠ cid0) (hv : f cid = some v) (hn : v.cnt = n) :
    mapHas (fun x => if x = cid0 then some u else f x) n :=
  ⟨cid, v, show (if cid = cid0 then some u else f cid) = some v by rw [if_neg hx]; exact hv, hn⟩

theorem mapHas_erase_elim {f : String → Option ClientRequest} {cid0 : String} {n : Nat}
    (h : mapHas (fun x => if x = cid0 then none else f x) n) :
    ∃ cid v, cid ≠ cid0 ∧ f cid = some v ∧ v.cnt = n := by
  obtain ⟨cid, v, hv, hc⟩ := h
  have hv2 : (if cid = cid0 then none else f cid) = some v := hv
  by_cases hx : cid = cid0
  · rw [if_pos hx] at hv2
    cases hv2
  · rw [if_neg hx] at hv2
    exact ⟨cid, v, hx, hv2, hc⟩

theorem mapHas_erase_intro {f : String → Option ClientRequest} {cid0 : String}
    {v : ClientRequest} {cid : String} {n : Nat}
    (hx : cid ≠ cid0) (hv : f cid = some v) (hn : v.cnt = n) :
    mapHas (fun x => if x = cid0 then none else f x) n :=
  ⟨cid, v, show (if cid = cid0 then none else f cid) = some v by rw [if_neg hx]; exact hv, hn⟩

theorem initRun_inv (c : CacheState) : Inv (initRun c) := by
  refine ⟨⟨List.nodup_nil, ?_, ?_⟩, List.nodup_nil, ?_, ?_, ?_, ?_, ?_, ?_, ?_⟩
  · intro cid
    simp [initRun, emptyQueue]
  · intro cid u h
    simp [initRun, emptyQueue] at h
  · intro n hn
    simp [initRun] at hn
  · intro n hn
    simp [initRun] at hn
  · intro cid u h
    simp [initRun, emptyQueue] at h
  · intro cid u cid' u' h
    simp [initRun, emptyQueue] at h
  · intro n hn
    simp [initRun] at hn
  · intro n hn
    simp [initRun] at hn
  · intro n hn
    exact ⟨rfl, rfl⟩

theorem stepRun_arrive_hit (gen : Generator) (r : Request) (p : RequestPayload)
    (a : RunSt) (r0 : ApiResponse) (hc : a.st.cache p.key = some r0) :
    stepRun gen a (.arriveL r p) =
      { a with
          st := { a.st with
                  cnt := a.st.cnt + 1
                  cache := fun k =>
                    if k = p.key then some r0.set_is_cached_response else a.st.cache k }
          ab := a.ab ++ [a.st.cnt + 1] } := by
  unfold stepRun
  dsimp only
  rw [handle_request_hit r p a.st r0 hc]

theorem stepRun_arrive_exchange (gen : Generator) (r : Request) (p : RequestPayload)
    (a : RunSt) (old : ClientRequest)
    (hc : a.st.cache p.key = none)
    (he : a.st.queue.client_items (get_client_id r) = some old) :
    stepRun gen a (.arriveL r p) =
      { st := { a.st with
                cnt := a.st.cnt + 1
                cache := a.st.cache
                queue := { a.st.queue with
                           client_items := fun x =>
                             if x = get_client_id r
                             then some ⟨get_client_id r, a.st.cnt + 1, p⟩
                             else a.st.queue.client_items x }
                slots := fun n =>
                  if n = old.cnt then some (generate_default_api_response "" 429)
                  else a.st.slots n
                events := fun n => if n = old.cnt then true else a.st.events n }
        completed := a.completed ++ [old.cnt]
        enq := a.enq ++ [a.st.cnt + 1]
        ab := a.ab } := by
  unfold stepRun
  dsimp only
  rw [handle_request_exchange r p a.st old hc he]
  dsimp only [Option.toList]

theorem stepRun_arrive_fresh (gen : Generator) (r : Request) (p : RequestPayload)
    (a : RunSt)
    (hc : a.st.cache p.key = none)
    (he : a.st.queue.client_items (get_client_id r) = none) :
    stepRun gen a (.arriveL r p) =
      { st := { a.st with
                cnt := a.st.cnt + 1
                cache := a.st.cache
                queue := { queue := a.st.queue.queue ++ [get_client_id r],
                           client_items := fun x =>
                             if x = get_client_id r
                             then some ⟨get_client_id r, a.st.cnt + 1, p⟩
                             else a.st.queue.client_items x } }
        completed := a.completed
        enq := a.enq ++ [a.st.cnt + 1]
        ab := a.ab } := by
  unfold stepRun
  dsimp only
  rw [handle_request_fresh r p a.st hc he]
  dsimp only [Option.toList]
  rw [List.append_nil]

theorem stepRun_consume_nil (gen : Generator) (a : RunSt)
    (hp : processOne gen a.st = none) :
    stepRun gen a .consumeL = a := by
  unfold stepRun
  dsimp only
  rw [hp]

theorem stepRun_consume (gen : Generator) (a : RunSt) (s1 : HandlerState) (k : Nat)
    (hp : processOne gen a.st = some (s1, k)) :
    stepRun gen a .consumeL = { a with st := s1, completed := a.completed ++ [k] } := by
  unfold stepRun
  dsimp only
  rw [hp]

theorem stepRun_inv (gen : Generator) (a : RunSt) (l : Lab) (hinv : Inv a) :
    Inv (stepRun gen a l) := by
  cases l with
  | arriveL r p =>
    cases hc : a.st.cache p.key with
    | some r0 =>
      rw [stepRun_arrive_hit gen r p a r0 hc]
      refine ⟨hinv.qwf, hinv.nodupC, ?_, hinv.compNotMap, ?_, hinv.mapInj, hinv.enqDone,
        ?_, ?_⟩
      · intro n hn
        exact Nat.le_succ_of_le (hinv.compLe n hn)
      · intro cid u h
        exact Nat.le_succ_of_le (hinv.mapLe cid u h)
      · intro n hn
        rcases List.mem_append.mp hn with h | h
        · obtain ⟨h1, h2, h3, h4, h5⟩ := hinv.abFree n h
          exact ⟨h1, h2, Nat.le_succ_of_le h3, h4, h5⟩
        · rw [List.mem_singleton] at h
          subst h
          refine ⟨?_, ?_, Nat.le_refl _, (hinv.fresh _ (Nat.lt_succ_self _)).1,
            (hinv.fresh _ (Nat.lt_succ_self _)).2⟩
          · intro hmem
            have := hinv.compLe _ hmem
            omega
          · intro hmap
            obtain ⟨cid, v, hv, hvc⟩ := hmap
            have := hinv.mapLe cid v hv
            omega
      · intro n hn
        have hn2 : a.st.cnt + 1 < n := hn
        exact hinv.fresh n (by omega)
    | none =>
      cases he : a.st.queue.client_items (get_client_id r) with
      | some old =>
        rw [stepRun_arrive_exchange gen r p a old hc he]
        have holdcnt : old.cnt ≤ a.st.cnt := hinv.mapLe _ old he
        have hmapold : mapHas a.st.queue.client_items old.cnt := ⟨_, old, he, rfl⟩
        have holdnc : old.cnt ∉ a.completed := fun hmem => hinv.compNotMap _ hmem hmapold
        have hqwf2 := QWF_put ⟨get_client_id r, a.st.cnt + 1, p⟩ a.st.queue hinv.qwf
        rw [put_or_exchange_replace ⟨get_client_id r, a.st.cnt + 1, p⟩ a.st.queue old he]
          at hqwf2
        refine ⟨hqwf2, ?_, ?_, ?_, ?_, ?_, ?_, ?_, ?_⟩
        · rw [List.nodup_append]
          refine ⟨hinv.nodupC, List.nodup_singleton _, ?_⟩
          intro x hx hx2
          rw [List.mem_singleton] at hx2
          subst hx2
          exact holdnc hx
        · intro n hn
          rcases List.mem_append.mp hn with h | h
          · exact Nat.le_succ_of_le (hinv.compLe n h)
          · rw [List.mem_singleton] at h
            subst h
            exact Nat.le_succ_of_le holdcnt
        · intro n hn hmap
          have hmap2 : mapHas (fun x =>
              if x = get_client_id r
              then some (⟨get_client_id r, a.st.cnt + 1, p⟩ : ClientRequest)
              else a.st.queue.client_items x) n := hmap
          rcases mapHas_insert_elim hmap2 with h | ⟨cid, v, hx, hv, hvc⟩
          · have h2 : n = a.st.cnt + 1 := h
            rcases List.mem_append.mp hn with h3 | h3
            · have := hinv.compLe n h3
              omega
            · rw [List.mem_singleton] at h3
              omega
          · rcases List.mem_append.mp hn with h3 | h3
            · exact hinv.compNotMap n h3 ⟨cid, v, hv, hvc⟩
            · rw [List.mem_singleton] at h3
              exact hx (hinv.mapInj cid v _ old hv he (by rw [hvc, h3]))
        · intro cid u h
          have h2 : (if cid = get_client_id r
              then some (⟨get_client_id r, a.st.cnt + 1, p⟩ : ClientRequest)
              else a.st.queue.client_items cid) = some u := h
          by_cases hx : cid = get_client_id r
          · rw [if_pos hx] at h2
            cases h2
            exact Nat.le_refl _
          · rw [if_neg hx] at h2
            exact Nat.le_succ_of_le (hinv.mapLe cid u h2)
        · intro cid u cid' u' h h' hcnt
          have h2 : (if cid = get_client_id r
              then some (⟨get_client_id r, a.st.cnt + 1, p⟩ : ClientRequest)
              else a.st.queue.client_items cid) = some u := h
          have h2' : (if cid' = get_client_id r
              then some (⟨get_client_id r, a.st.cnt + 1, p⟩ : ClientRequest)
              else a.st.queue.client_items cid') = some u' := h'
          by_cases hx : cid = get_client_id r
          · by_cases hx' : cid' = get_client_id r
            · rw [hx, hx']
            · rw [if_pos hx] at h2
              rw [if_neg hx'] at h2'
              cases h2
              have hle := hinv.mapLe cid' u' h2'
              have hcnt2 : a.st.cnt + 1 = u'.cnt := hcnt
              omega
          · by_cases hx' : cid' = get_client_id r
            · rw [if_neg hx] at h2
              rw [if_pos hx'] at h2'
              cases h2'
              have hle := hinv.mapLe cid u h2
              have hcnt2 : u.cnt = a.st.cnt + 1 := hcnt
              omega
            · rw [if_neg hx] at h2
              rw [if_neg hx'] at h2'
              exact hinv.mapInj cid u cid' u' h2 h2' hcnt
        · intro n hn
          rcases List.mem_append.mp hn with h | h
          · rcases hinv.enqDone n h with h2 | hmap
            · exact Or.inl (List.mem_append_left _ h2)
            · obtain ⟨cid, v, hv, hvc⟩ := hmap
              by_cases hx : cid = get_client_id r
              · subst hx
                have hov : some old = some v := he.symm.trans hv
                cases hov
                refine Or.inl (List.mem_append_right _ ?_)
                rw [List.mem_singleton]
                exact hvc.symm
              · exact Or.inr (mapHas_insert_old hx hv hvc)
          · rw [List.mem_singleton] at h
            subst h
            exact Or.inr mapHas_insert_self
        · intro n hn
          obtain ⟨h1, h2, h3, h4, h5⟩ := hinv.abFree n hn
          have hne : n ≠ old.cnt := fun hx => h2 (by rw [hx]; exact hmapold)
          refine ⟨?_, ?_, Nat.le_succ_of_le h3, ?_, ?_⟩
          · intro hmem
            rcases List.mem_append.mp hmem with h6 | h6
            · exact h1 h6
            · rw [List.mem_singleton] at h6
              exact hne h6
          · intro hmap
            have hmap2 : mapHas (fun x =>
                if x = get_client_id r
                then some (⟨get_client_id r, a.st.cnt + 1, p⟩ : ClientRequest)
                else a.st.queue.client_items x) n := hmap
            rcases mapHas_insert_elim hmap2 with h6 | ⟨cid, v, hx, hv, hvc⟩
            · have h7 : n = a.st.cnt + 1 := h6
              omega
            · exact h2 ⟨cid, v, hv, hvc⟩
          · show (if n = old.cnt then true else a.st.events n) = false
            rw [if_neg hne]
            exact h4
          · show (if n = old.cnt then some (generate_default_api_response "" 429)
              else a.st.slots n) = none
            rw [if_neg hne]
            exact h5
        · intro n hn
          have hn2 : a.st.cnt + 1 < n := hn
          have hne : n ≠ old.cnt := by omega
          constructor
          · show (if n = old.cnt then true else a.st.events n) = false
            rw [if_neg hne]
            exact (hinv.fresh n (by omega)).1
          · show (if n = old.cnt then some (generate_default_api_response "" 429)
              else a.st.slots n) = none
            rw [if_neg hne]
            exact (hinv.fresh n (by omega)).2
      | none =>
        rw [stepRun_arrive_fresh gen r p a hc he]
        have hqwf2 := QWF_put ⟨get_client_id r, a.st.cnt + 1, p⟩ a.st.queue hinv.qwf
        rw [put_or_exchange_fresh ⟨get_client_id r, a.st.cnt + 1, p⟩ a.st.queue he] at hqwf2
        refine ⟨hqwf2, hinv.nodupC, ?_, ?_, ?_, ?_, ?_, ?_, ?_⟩
        · intro n hn
          exact Nat.le_succ_of_le (hinv.compLe n hn)
        · intro n hn hmap
          have hmap2 : mapHas (fun x =>
              if x = get_client_id r
              then some (⟨get_client_id r, a.st.cnt + 1, p⟩ : ClientRequest)
              else a.st.queue.client_items x) n := hmap
          rcases mapHas_insert_elim hmap2 with h | ⟨cid, v, hx, hv, hvc⟩
          · have h2 : n = a.st.cnt + 1 := h
            have := hinv.compLe n hn
            omega
          · exact hinv.compNotMap n hn ⟨cid, v, hv, hvc⟩
        · intro cid u h
          have h2 : (if cid = get_client_id r
              then some (⟨get_client_id r, a.st.cnt + 1, p⟩ : ClientRequest)
              else a.st.queue.client_items cid) = some u := h
          by_cases hx : cid = get_client_id r
          · rw [if_pos hx] at h2
            cases h2
            exact Nat.le_refl _
          · rw [if_neg hx] at h2
            exact Nat.le_succ_of_le (hinv.mapLe cid u h2)
        · intro cid u cid' u' h h' hcnt
          have h2 : (if cid = get_client_id r
              then some (⟨get_client_id r, a.st.cnt + 1, p⟩ : ClientRequest)
              else a.st.queue.client_items cid) = some u := h
          have h2' : (if cid' = get_client_id r
              then some (⟨get_client_id r, a.st.cnt + 1, p⟩ : ClientRequest)
              else a.st.queue.client_items cid') = some u' := h'
          by_cases hx : cid = get_client_id r
          · by_cases hx' : cid' = get_client_id r
            · rw [hx, hx']
            · rw [if_pos hx] at h2
              rw [if_neg hx'] at h2'
              cases h2
              have hle := hinv.mapLe cid' u' h2'
              have hcnt2 : a.st.cnt + 1 = u'.cnt := hcnt
              omega
          · by_cases hx' : cid' = get_client_id r
            · rw [if_neg hx] at h2
              rw [if_pos hx'] at h2'
              cases h2'
              have hle := hinv.mapLe cid u h2
              have hcnt2 : u.cnt = a.st.cnt + 1 := hcnt
              omega
            · rw [if_neg hx] at h2
              rw [if_neg hx'] at h2'
              exact hinv.mapInj cid u cid' u' h2 h2' hcnt
        · intro n hn
          rcases List.mem_append.mp hn with h | h
          · rcases hinv.enqDone n h with h2 | hmap
            · exact Or.inl h2
            · obtain ⟨cid, v, hv, hvc⟩ := hmap
              by_cases hx : cid = get_client_id r
              · subst hx
                rw [he] at hv
                cases hv
              · exact Or.inr (mapHas_insert_old hx hv hvc)
          · rw [List.mem_singleton] at h
            subst h
            exact Or.inr mapHas_insert_self
        · intro n hn
          obtain ⟨h1, h2, h3, h4, h5⟩ := hinv.abFree n hn
          refine ⟨h1, ?_, Nat.le_succ_of_le h3, h4, h5⟩
          intro hmap
          have hmap2 : mapHas (fun x =>
              if x = get_client_id r
              then some (⟨get_client_id r, a.st.cnt + 1, p⟩ : ClientRequest)
              else a.st.queue.client_items x) n := hmap
          rcases mapHas_insert_elim hmap2 with h6 | ⟨cid, v, hx, hv, hvc⟩
          · have h7 : n = a.st.cnt + 1 := h6
            omega
          · exact h2 ⟨cid, v, hv, hvc⟩
        · intro n hn
          have hn2 : a.st.cnt + 1 < n := hn
          exact hinv.fresh n (by omega)
  | consumeL =>
    cases hq : a.st.queue.queue with
    | nil =>
      have hp : processOne gen a.st = none := by
        simp only [processOne]
        rw [get_step_nil a.st.queue hq]
      rw [stepRun_consume_nil gen a hp]
      exact hinv
    | cons cid0 rest =>
      obtain ⟨cr, hit, hcrid, hget⟩ := get_step_total a.st.queue hinv.qwf cid0 rest hq
      obtain ⟨s1, hp, hcnt, hqq, hci, hev, hsl⟩ := processOne_shape gen a.st cid0 rest cr hq hit
      rw [stepRun_consume gen a s1 cr.cnt hp]
      have hcr : mapHas a.st.queue.client_items cr.cnt := ⟨cid0, cr, hit, rfl⟩
      have hcrle : cr.cnt ≤ a.st.cnt := hinv.mapLe _ _ hit
      have hcrnc : cr.cnt ∉ a.completed := fun hmem => hinv.compNotMap _ hmem hcr
      have hQ := QWF_get_preserve a.st.queue hinv.qwf cid0 rest hq
      have hqeq : s1.queue =
          { queue := rest
            client_items := fun x =>
              if x = cid0 then none else a.st.queue.client_items x } := by
        rw [← hqq, ← hci]
      refine ⟨?_, ?_, ?_, ?_, ?_, ?_, ?_, ?_, ?_⟩
      · show QWF s1.queue
        rw [hqeq]
        exact hQ
      · rw [List.nodup_append]
        refine ⟨hinv.nodupC, List.nodup_singleton _, ?_⟩
        intro x hx hx2
        rw [List.mem_singleton] at hx2
        subst hx2
        exact hcrnc hx
      · intro n hn
        show n ≤ s1.cnt
        rw [hcnt]
        rcases List.mem_append.mp hn with h | h
        · exact hinv.compLe n h
        · rw [List.mem_singleton] at h
          subst h
          exact hcrle
      · intro n hn hmap
        have hmap2 : mapHas s1.queue.client_items n := hmap
        rw [hci] at hmap2
        rcases mapHas_erase_elim hmap2 with ⟨cid, v, hx, hv, hvc⟩
        rcases List.mem_append.mp hn with h3 | h3
        · exact hinv.compNotMap n h3 ⟨cid, v, hv, hvc⟩
        · rw [List.mem_singleton] at h3
          exact hx (hinv.mapInj cid v cid0 cr hv hit (by rw [hvc, h3]))
      · intro cid u h
        have h2 : s1.queue.client_items cid = some u := h
        rw [hci] at h2
        have h3 : (if cid = cid0 then none else a.st.queue.client_items cid) = some u := h2
        by_cases hx : cid = cid0
        · rw [if_pos hx] at h3
          cases h3
        · rw [if_neg hx] at h3
          show u.cnt ≤ s1.cnt
          rw [hcnt]
          exact hinv.mapLe cid u h3
      · intro cid u cid' u' h h' hcnt2
        have h2 : s1.queue.client_items cid = some u := h
        have h2' : s1.queue.client_items cid' = some u' := h'
        rw [hci] at h2 h2'
        have h3 : (if cid = cid0 then none else a.st.queue.client_items cid) = some u := h2
        have h3' : (if cid' = cid0 then none else a.st.queue.client_items cid') = some u' := h2'
        by_cases hx : cid = cid0
        · rw [if_pos hx] at h3
          cases h3
        · by_cases hx' : cid' = cid0
          · rw [if_pos hx'] at h3'
            cases h3'
          · rw [if_neg hx] at h3
            rw [if_neg hx'] at h3'
            exact hinv.mapInj cid u cid' u' h3 h3' hcnt2
      · intro n hn
        rcases hinv.enqDone n hn with h2 | hmap
        · exact Or.inl (List.mem_append_left _ h2)
        · obtain ⟨cid, v, hv, hvc⟩ := hmap
          by_cases hx : cid = cid0
          · subst hx
            have hov : some cr = some v := hit.symm.trans hv
            cases hov
            refine Or.inl (List.mem_append_right _ ?_)
            rw [List.mem_singleton]
            exact hvc.symm
          · refine Or.inr ?_
            show mapHas s1.queue.client_items n
            rw [hci]
            exact mapHas_erase_intro hx hv hvc
      · intro n hn
        obtain ⟨h1, h2, h3, h4, h5⟩ := hinv.abFree n hn
        have hne : n ≠ cr.cnt := fun hx => h2 (by rw [hx]; exact hcr)
        refine ⟨?_, ?_, ?_, ?_, ?_⟩
        · intro hmem
          rcases List.mem_append.mp hmem with h6 | h6
          · exact h1 h6
          · rw [List.mem_singleton] at h6
            exact hne h6
        · intro hmap
          have hmap2 : mapHas s1.queue.client_items n := hmap
          rw [hci] at hmap2
          rcases mapHas_erase_elim hmap2 with ⟨cid, v, hx, hv, hvc⟩
          exact h2 ⟨cid, v, hv, hvc⟩
        · show n ≤ s1.cnt
          rw [hcnt]
          exact h3
        · show s1.events n = false
          rw [hev]
          show (if n = cr.cnt then true else a.st.events n) = false
          rw [if_neg hne]
          exact h4
        · show s1.slots n = none
          rw [hsl n hne]
          exact h5
      · intro n hn
        have hn0 : s1.cnt < n := hn
        rw [hcnt] at hn0
        have hne : n ≠ cr.cnt := by omega
        constructor
        · show s1.events n = false
          rw [hev]
          show (if n = cr.cnt then true else a.st.events n) = false
          rw [if_neg hne]
          exact (hinv.fresh n hn0).1
        · show s1.slots n = none
          rw [hsl n hne]
          exact (hinv.fresh n hn0).2

theorem runSteps_inv (gen : Generator) (labs : List Lab) :
    ∀ a, Inv a → Inv (runSteps gen a labs) := by
  induction labs with
  | nil => exact fun a h => h
  | cons l rest ih =>
    intro a h
    exact ih (stepRun gen a l) (stepRun_inv gen a l h)

theorem ab_sub_step (gen : Generator) (a : RunSt) (l : Lab) :
    a.ab ⊆ (stepRun gen a l).ab := by
  cases l with
  | arriveL r p =>
    unfold stepRun
    dsimp only
    rcases hh : handle_request r p a.st with ⟨s1, o⟩
    cases o with
    | cached resp =>
      dsimp only
      exact List.subset_append_left _ _
    | waiting uid sup =>
      dsimp only
      exact List.Subset.refl _
  | consumeL =>
    unfold stepRun
    dsimp only
    cases hh : processOne gen a.st with
    | none => exact List.Subset.refl _
    | some pr =>
      rcases pr with ⟨s1, k⟩
      dsimp only
      exact List.Subset.refl _

theorem ab_sub_runSteps (gen : Generator) (labs : List Lab) :
    ∀ a, a.ab ⊆ (runSteps gen a labs).ab := by
  induction labs with
  | nil => exact fun a => List.Subset.refl _
  | cons l rest ih =>
    intro a
    exact fun x hx => ih (stepRun gen a l) (ab_sub_step gen a l hx)

theorem neverCompleted_of_ab (a : RunSt) (n : Nat) (hinv : Inv a) (hn : n ∈ a.ab) :
    neverCompleted a n := by
  intro gen labs
  have h1 := runSteps_inv gen labs a hinv
  have h2 : n ∈ (runSteps gen a labs).ab := ab_sub_runSteps gen labs a hn
  have h3 := h1.abFree n h2
  exact ⟨h3.2.2.2.1, h3.2.2.2.2⟩

/-- C1 counterexample: `handle_request` creates its Request Unit before the
fast-path cache lookup.  On a handler whose cache already holds fingerprint
`"x"`, a call with that fingerprint creates unit 1 and then returns the
cached response directly: unit 1 is never enqueued and receives zero
completions — its event stays unset and its result slot stays empty in
every continuation of the run, under any backend and any scheduling.  This
refutes exactly-one completion for units created by fast-path cache-hit
calls. -/
theorem C1_counterexample :
    (handle_request rAnon pX (initRun cHit).st).2 = .cached ⟨"hello", 200, true⟩ ∧
    1 ∈ aHit.ab ∧
    neverCompleted aHit 1 := by
  refine ⟨by decide, by decide, ?_⟩
  exact neverCompleted_of_ab aHit 1
    (stepRun_inv genErr (initRun cHit) (.arriveL rAnon pX) (initRun_inv cHit))
    (by decide)

/-- C1 (amended): in every run of the system from a fresh handler, each
unit receives at most one completion (the completion record has no
duplicates); every enqueued unit is completed once the queue has drained
(never zero for enqueued units); and a unit created by a fast-path
cache-hit call is abandoned: it is never completed — its event stays unset
and its slot stays empty — its caller having returned the cached response
directly. -/
theorem C1_amended_completion (gen : Generator) (c : CacheState) (labs : List Lab) :
    (runSteps gen (initRun c) labs).completed.Nodup ∧
    ((runSteps gen (initRun c) labs).st.queue.queue = [] →
      ∀ n ∈ (runSteps gen (initRun c) labs).enq,
        n ∈ (runSteps gen (initRun c) labs).completed) ∧
    (∀ n ∈ (runSteps gen (initRun c) labs).ab,
      n ∉ (runSteps gen (initRun c) labs).completed ∧
      (runSteps gen (initRun c) labs).st.events n = false ∧
      (runSteps gen (initRun c) labs).st.slots n = none) := by
  have hinv := runSteps_inv gen labs (initRun c) (initRun_inv c)
  refine ⟨hinv.nodupC, ?_, ?_⟩
  · intro hq n hn
    rcases hinv.enqDone n hn with h | h
    · exact h
    · exfalso
      obtain ⟨cid, v, hv, hvc⟩ := h
      have hmem : cid ∈ (runSteps gen (initRun c) labs).st.queue.queue :=
        (hinv.qwf.memIff cid).mpr (by rw [hv]; simp)
      rw [hq] at hmem
      exact absurd hmem (List.not_mem_nil cid)
  · intro n hn
    have h := hinv.abFree n hn
    exact ⟨h.1, h.2.2.2.1, h.2.2.2.2⟩

theorem C1_amended_completion_witness :
    (runSteps genOk (initRun cNone) [.arriveL rBear pX, .consumeL]).completed.Nodup ∧
    1 ∈ (runSteps genOk (initRun cNone) [.arriveL rBear pX, .consumeL]).completed := by
  have h := C1_amended_completion genOk cNone [.arriveL rBear pX, .consumeL]
  exact ⟨h.1, h.2.1 rfl 1 (by decide)⟩

end App
